import Mathlib

/-!
Verification of the rpscrape-raceday-actor wrapper.

The development shallowly embeds the three Python source files:

* `src/src/main.py`   — the Apify actor (`runMain` and its phases);
* `src/src/main_v1.py` — the earlier actor variant that parses captured
  standard output (`runMainV1`);
* `src/parse_races.py` — the standalone course-splitting script
  (`races_by_course`, `writeEvents`).

JSON values are modelled by the inductive `JValue`; Python dictionaries are
association lists with Python's update semantics (`dictSet` replaces the
value in place, preserving key order, and appends fresh keys).  External
effects (the cloned working copy, the subprocess outcome, the scraper's
output directory, the results of `json.load`/`json.loads`) are recorded in
an environment structure, and the actor's storage calls (`Actor.push_data`,
`Actor.set_value`) are accumulated in explicit sink lists.
-/

namespace Rps

/-- A JSON value as produced by Python's `json.load`.  Numbers are modelled
as integers; objects are association lists in insertion order. -/
inductive JValue where
  | null
  | bool (b : Bool)
  | num (n : Int)
  | str (s : String)
  | arr (elems : List JValue)
  | obj (fields : List (String × JValue))

abbrev JObj := List (String × JValue)

/-- Python `s.endswith(suffix)`: exact suffix match. -/
def strEndsWith (s suffix : String) : Bool :=
  let ls := s.toList
  let lt := suffix.toList
  if lt.length ≤ ls.length then ls.drop (ls.length - lt.length) == lt else false

/-- Python `s.replace(ch, '')` for a one-character pattern (the only form
the source uses, with `ch = ':'`): delete every occurrence of `ch`. -/
def stripChar (ch : Char) (s : String) : String :=
  String.mk (s.toList.filter (fun c => c != ch))

/-- Python `s.rstrip()`: drop trailing whitespace. -/
def strRstrip (s : String) : String :=
  String.mk ((s.toList.reverse.dropWhile (fun c => c.isWhitespace)).reverse)

/-- Python `d[k]` / `d.get(k)` on a dict: the value stored at `k`. -/
def dictGet : JObj → String → Option JValue
  | [], _ => none
  | (k2, v) :: rest, k => if k2 = k then some v else dictGet rest k

/-- Python `d.get(k, dflt)`. -/
def dictGetD (d : JObj) (k : String) (dflt : JValue) : JValue :=
  (dictGet d k).getD dflt

/-- Python `d[k] = v` on a dict: replace in place if the key is present
(key order preserved), otherwise append the new key at the end. -/
def dictSet : JObj → String → JValue → JObj
  | [], k, v => [(k, v)]
  | (k2, v2) :: rest, k, v =>
    if k2 = k then (k2, v) :: rest else (k2, v2) :: dictSet rest k v

/-- Python `k in d`. -/
def hasKey (d : JObj) (k : String) : Bool :=
  (dictGet d k).isSome

/-- Python `{**d, **ps}` applied to an existing dict `d`: insert every pair
of `ps` in order with dict-assignment semantics. -/
def dictInsertAll (d : JObj) (ps : JObj) : JObj :=
  ps.foldl (fun acc p => dictSet acc p.1 p.2) d

mutual
/-- Python `repr` of a JSON-shaped value (as used by `str()` inside
f-strings for non-string values). -/
def pyRepr : JValue → String
  | .null => "None"
  | .bool true => "True"
  | .bool false => "False"
  | .num n => toString n
  | .str s => "'" ++ s ++ "'"
  | .arr xs => "[" ++ pyReprList xs ++ "]"
  | .obj fs => "\x7b" ++ pyReprFields fs ++ "\x7d"
def pyReprList : List JValue → String
  | [] => ""
  | [x] => pyRepr x
  | x :: y :: xs => pyRepr x ++ ", " ++ pyReprList (y :: xs)
def pyReprFields : List (String × JValue) → String
  | [] => ""
  | [(k, v)] => "'" ++ k ++ "': " ++ pyRepr v
  | (k, v) :: p :: xs => "'" ++ k ++ "': " ++ pyRepr v ++ ", " ++ pyReprFields (p :: xs)
end

/-- Python `str()` as used by f-string interpolation. -/
def pyStr : JValue → String
  | .str s => s
  | v => pyRepr v

/-- Python `len()`: defined on strings, lists and dicts; raises `TypeError`
(modelled as `none`) on numbers, booleans and `None`. -/
def pyLen : JValue → Option Nat
  | .str s => some s.length
  | .arr xs => some xs.length
  | .obj fs => some fs.length
  | _ => none

/-! ### Output locator (`main.py` lines 85–102) -/

/-- One entry of the scraper's output directory: a file name together with
its modification time. -/
structure FileEntry where
  name : String
  mtime : Nat
deriving DecidableEq

/-- Insertion step of a stable descending-by-`mtime` sort: `x` (which
precedes every element of the tail in the original listing) is placed
before the first element whose modification time does not exceed it. -/
def insertDesc (x : FileEntry) : List FileEntry → List FileEntry
  | [] => [x]
  | y :: ys => if x.mtime < y.mtime then y :: insertDesc x ys else x :: y :: ys

/-- `json_files.sort(key=..getmtime, reverse=True)`: Python's sort is a
stable sort, here descending by modification time; a stable insertion sort
computes the identical permutation. -/
def sortDesc : List FileEntry → List FileEntry
  | [] => []
  | x :: xs => insertDesc x (sortDesc xs)

/-- `[f for f in os.listdir(path) if f.endswith('.json')]`. -/
def jsonFilesOf (listing : List FileEntry) : List FileEntry :=
  listing.filter (fun f => strEndsWith f.name ".json")

/-- `main.py` lines 85–102: list the `racecards` directory (absent directory
modelled as `none`), keep the `.json` entries, sort by modification time
descending, and take the first; `none` when the directory is missing or no
`.json` file is present. -/
def selectOutputFile : Option (List FileEntry) → Option FileEntry
  | none => none
  | some listing =>
    match sortDesc (jsonFilesOf listing) with
    | [] => none
    | f :: _ => some f

/-! ### Record publisher (`main.py` lines 104–155) -/

/-- The two storage sinks: records pushed via `Actor.push_data` and
key/value pairs stored via `Actor.set_value`, each in call order. -/
structure Sinks where
  dataset : List JValue
  kv : List (String × JValue)

/-- `item["timestamp"] = timestamp` (`main.py` line 135). -/
def stampRecord (ts : String) (fields : JObj) : JObj :=
  dictSet fields "timestamp" (.str ts)

/-- `item.get('race_time', 'unknown').replace(':', '')` (`main.py` line 144):
`none` models the `AttributeError` raised when the stored value is not a
string. -/
def raceTimeOf (fields : JObj) : Option String :=
  match dictGet fields "race_time" with
  | none => some (stripChar ':' "unknown")
  | some (.str s) => some (stripChar ':' s)
  | some _ => none

/-- `f"{date_arg}_{course_name}_{race_time}_{race_id}.json"` (`main.py`
line 146), reading `racecourse_name` and `race_id` from the (stamped)
record with default `'unknown'`. -/
def kvFilename (date_arg : String) (fields : JObj) (race_time : String) : String :=
  date_arg ++ "_" ++ pyStr (dictGetD fields "racecourse_name" (.str "unknown")) ++ "_"
    ++ race_time ++ "_" ++ pyStr (dictGetD fields "race_id" (.str "unknown")) ++ ".json"

/-- One iteration of the loop at `main.py` lines 133–148.  A non-dict item
raises on the timestamp assignment before anything is pushed; a non-string
`race_time` raises after `Actor.push_data` but before `Actor.set_value`.
The second component is `some` of the stamped item when the iteration
completed, `none` when it raised. -/
def pushItem (date_arg ts : String) (acc : Sinks) (item : JValue) : Sinks × Option JValue :=
  match item with
  | .obj fields =>
    let fields2 := stampRecord ts fields
    let stamped := JValue.obj fields2
    let acc2 : Sinks := ⟨acc.dataset ++ [stamped], acc.kv⟩
    match raceTimeOf fields2 with
    | none => (acc2, none)
    | some rt =>
      (⟨acc2.dataset, acc2.kv ++ [(kvFilename date_arg fields2 rt, stamped)]⟩, some stamped)
  | _ => (acc, none)

/-- The `for item in data` loop (`main.py` lines 133–148).  On an exception
the loop stops with the sinks as already filled; on completion it also
returns the list of (mutated, i.e. stamped) items, which is what the
variable `data` holds after the loop. -/
def pushLoop (date_arg ts : String) : List JValue → Sinks → Sinks × Option (List JValue)
  | [], acc => (acc, some [])
  | item :: rest, acc =>
    match pushItem date_arg ts acc item with
    | (acc2, none) => (acc2, none)
    | (acc2, some stamped) =>
      match pushLoop date_arg ts rest acc2 with
      | (acc3, none) => (acc3, none)
      | (acc3, some stampedRest) => (acc3, some (stamped :: stampedRest))

/-- `if not isinstance(data, list): data = [data]` (`main.py` lines 122–124). -/
def normalizeRecords : JValue → List JValue
  | .arr xs => xs
  | v => [v]

/-- `main.py` lines 104–155 given a parsed artifact: run the per-record
loop and, when it completes, store the whole batch once more under
`complete_{command}_{date_arg}.json`.  The boolean is `true` when the
processing block ran to completion. -/
def processArtifact (commandStr date_arg ts : String) (data0 : JValue) : Bool × Sinks :=
  let records := normalizeRecords data0
  match pushLoop date_arg ts records ⟨[], []⟩ with
  | (acc, none) => (false, acc)
  | (acc, some stampedAll) =>
    (true, ⟨acc.dataset,
            acc.kv ++ [("complete_" ++ commandStr ++ "_" ++ date_arg ++ ".json",
                        .arr stampedAll)]⟩)

/-! ### The actor (`main.py`) -/

/-- Outcome of `subprocess.run(..., timeout=900)`. -/
inductive RunOutcome where
  | timedOut
  | completed (returncode : Int) (stdout : String) (stderr : String)

/-- The externally determined facts a run of `main.py` observes:
the actor input, whether the `rpscrape` working copy is present, whether a
`git clone` would succeed, whether `scripts/{command}.py` exists, the
subprocess outcome, the listing of `rpscrape/racecards` (`none` when the
directory is missing), the result of `json.load` per file name (`none`
models a `JSONDecodeError`), and the value captured by
`datetime.now(timezone.utc).isoformat()`. -/
structure Env where
  inputData : Option JObj
  rpscrapePresent : Bool
  cloneSucceeds : Bool
  scriptExists : Bool
  runOutcome : RunOutcome
  racecardsDir : Option (List FileEntry)
  readJson : String → Option JValue
  timestamp : String

/-- What a run of `main.py` did: whether it completed without
`Actor.fail`, the two sinks, whether a `git clone` was attempted, and
whether `subprocess.run` on the script was reached. -/
structure Outcome where
  success : Bool
  dataset : List JValue
  kv : List (String × JValue)
  cloneAttempted : Bool
  scriptExecuted : Bool

/-- `actor_input.get('command', 'racecards')` (`main.py` lines 21–22). -/
def resolvedCommand (env : Env) : JValue :=
  dictGetD (env.inputData.getD []) "command" (.str "racecards")

/-- `actor_input.get('date', 'today')` (`main.py` lines 21–23). -/
def resolvedDate (env : Env) : JValue :=
  dictGetD (env.inputData.getD []) "date" (.str "today")

/-- `main.py` lines 58–181, after the clone and script-existence checks:
run the subprocess, locate the artifact, load it and publish. -/
def runScriptPhase (env : Env) (ca : Bool) (date_arg : String) : Outcome :=
  match env.runOutcome with
  | .timedOut => ⟨false, [], [], ca, true⟩
  | .completed rc _ _ =>
    if rc ≠ 0 then ⟨false, [], [], ca, true⟩
    else
      match selectOutputFile env.racecardsDir with
      | none => ⟨false, [], [], ca, true⟩
      | some f =>
        match env.readJson f.name with
        | none => ⟨false, [], [], ca, true⟩
        | some data0 =>
          let r := processArtifact (pyStr (resolvedCommand env)) date_arg env.timestamp data0
          ⟨r.1, r.2.dataset, r.2.kv, ca, true⟩

/-- The whole of `main.py`'s `main`: clone if absent (failing the run when
the clone fails), check the script exists, then run and publish.  A
non-string `date` input makes `subprocess.run` raise a `TypeError`
(caught by the outer handler) before the script executes. -/
def runMain (env : Env) : Outcome :=
  if !env.rpscrapePresent && !env.cloneSucceeds then
    ⟨false, [], [], !env.rpscrapePresent, false⟩
  else if !env.scriptExists then
    ⟨false, [], [], !env.rpscrapePresent, false⟩
  else
    match resolvedDate env with
    | .str date_arg => runScriptPhase env (!env.rpscrapePresent) date_arg
    | _ => ⟨false, [], [], !env.rpscrapePresent, false⟩

/-- The disjunction of the four failure causes named by the spec for the
post-clone phase of `main.py`: subprocess timeout, nonzero exit status, no
JSON artifact found, artifact not parseable as JSON. -/
def failCause (env : Env) : Bool :=
  (match env.runOutcome with
   | .timedOut => true
   | .completed rc _ _ => rc != 0)
  || (match selectOutputFile env.racecardsDir with
      | none => true
      | some f => (env.readJson f.name).isNone)

/-! ### The stdout-parsing variant (`main_v1.py`) -/

/-- Environment for `main_v1.py`: as for `main.py`, except that the JSON
artifact is `json.loads(result.stdout)`, recorded as `stdoutParse`
(`none` models a `JSONDecodeError`). -/
structure EnvV1 where
  inputData : Option JObj
  rpscrapePresent : Bool
  cloneSucceeds : Bool
  scriptExists : Bool
  runOutcome : RunOutcome
  stdoutParse : Option JValue

structure OutcomeV1 where
  success : Bool
  dataset : List JValue
  kv : List (String × JValue)

/-- `actor_input.get('command', 'racecards')` (`main_v1.py` lines 19–20). -/
def resolvedCommandV1 (env : EnvV1) : JValue :=
  dictGetD (env.inputData.getD []) "command" (.str "racecards")

/-- `actor_input.get('date', 'today')` (`main_v1.py` lines 19–21). -/
def resolvedDateV1 (env : EnvV1) : JValue :=
  dictGetD (env.inputData.getD []) "date" (.str "today")

/-- `{'raw_output': result.stdout}` (`main_v1.py` line 83). -/
def rawOutputRecord (stdout : String) : JValue :=
  .obj [("raw_output", .str stdout)]

/-- The whole of `main_v1.py`'s `main`.  After a successful parse the code
evaluates `len(output_data)` (line 79), which raises a `TypeError` on a
number, boolean or null — caught by the outer handler, failing the run
with nothing stored. -/
def runMainV1 (env : EnvV1) : OutcomeV1 :=
  if !env.rpscrapePresent && !env.cloneSucceeds then ⟨false, [], []⟩
  else if !env.scriptExists then ⟨false, [], []⟩
  else
    match resolvedDateV1 env with
    | .str _ =>
      (match env.runOutcome with
       | .timedOut => ⟨false, [], []⟩
       | .completed rc stdout _ =>
         if rc ≠ 0 then ⟨false, [], []⟩
         else
           match env.stdoutParse with
           | some v =>
             (match pyLen v with
              | none => ⟨false, [], []⟩
              | some _ => ⟨true, [v], [("OUTPUT", v)]⟩)
           | none =>
             ⟨true, [rawOutputRecord stdout], [("OUTPUT", rawOutputRecord stdout)]⟩)
    | _ => ⟨false, [], []⟩

/-! ### The course-splitting script (`parse_races.py`) -/

/-- `off_time ↦ race_data` level of the input. -/
abbrev RaceTimes := List (String × JValue)

/-- `course_name ↦ race_times` level of the input. -/
abbrev Courses := List (String × RaceTimes)

/-- `country ↦ courses` level of the input, in iteration order. -/
abbrev CardData := List (String × Courses)

/-- `{"country": .., "course": .., "off_time": .., **race_data}`
(`parse_races.py` lines 24–29). -/
def full_race (country course off_time : String) (race_fields : JObj) : JValue :=
  .obj (dictInsertAll
    [("country", .str country), ("course", .str course), ("off_time", .str off_time)]
    race_fields)

/-- `races_by_course.setdefault`-style append (`parse_races.py` lines 31–34):
append to the existing group of the key, or create a new group at the end. -/
def groupAppend : List (String × List JValue) → String → JValue → List (String × List JValue)
  | [], k, v => [(k, [v])]
  | (k2, vs) :: rest, k, v =>
    if k2 = k then (k2, vs ++ [v]) :: rest
    else (k2, vs) :: groupAppend rest k v

/-- The body of the innermost loop (`parse_races.py` lines 22–34): a race
is added to its course's group exactly when its value is a dict containing
the key `"runners"`. -/
def addRaceData (country course_name off_time : String) (race_data : JValue)
    (g : List (String × List JValue)) : List (String × List JValue) :=
  match race_data with
  | .obj fields =>
    if hasKey fields "runners" then
      groupAppend g course_name (full_race country course_name off_time fields)
    else g
  | _ => g

/-- `parse_races.py` lines 19–34: the triple-nested loop building
`races_by_course` from the nested input. -/
def races_by_course (data : CardData) : List (String × List JValue) :=
  data.foldl (fun g cc =>
    cc.2.foldl (fun g co =>
      co.2.foldl (fun g tr => addRaceData cc.1 co.1 tr.1 tr.2 g) g) g) []

/-- `"".join(c for c in course if c.isalnum() or c in (" ", "-", "_")).rstrip()`
(`parse_races.py` line 38). -/
def safe_name (course : String) : String :=
  strRstrip (String.mk (course.toList.filter
    (fun c => c.isAlphanum || c == ' ' || c == '-' || c == '_')))

/-- `parse_races.py` lines 36–42: the sequence of file writes, one per
group, as (file name, serialized content) pairs in loop order. -/
def writeEvents (data : CardData) : List (String × JValue) :=
  (races_by_course data).map (fun g => (safe_name g.1 ++ ".json", JValue.arr g.2))

/-! ### Specification-side characterisations (proved equal to the code) -/

/-- A flattened entry of the nested input: one `(country, course, off_time,
race_data)` tuple. -/
structure RaceEntry where
  country : String
  course : String
  off_time : String
  race_data : JValue

/-- The input flattened in iteration order. -/
def raceEntries (data : CardData) : List RaceEntry :=
  data.flatMap (fun cc => cc.2.flatMap (fun co =>
    co.2.map (fun tr => ⟨cc.1, co.1, tr.1, tr.2⟩)))

/-- The contribution of one entry: `some` of its augmented race when it
qualifies (dict value containing `"runners"`), `none` otherwise. -/
def entryRace (e : RaceEntry) : Option JValue :=
  match e.race_data with
  | .obj fields =>
    if hasKey fields "runners" then
      some (full_race e.country e.course e.off_time fields)
    else none
  | _ => none

/-- The list of augmented qualifying races of course `c`, in input
iteration order. -/
def courseRaces (data : CardData) (c : String) : List JValue :=
  (raceEntries data).filterMap (fun e => if e.course = c then entryRace e else none)

/-- The group stored for key `c` (first occurrence), `[]` when absent. -/
def groupGet (g : List (String × List JValue)) (c : String) : List JValue :=
  match g with
  | [] => []
  | (k, vs) :: rest => if k = c then vs else groupGet rest c

/-- How many groups carry the key `c`. -/
def countKey (g : List (String × List JValue)) (c : String) : Nat :=
  g.countP (fun e => e.1 == c)

/-- One flattened step of the loop. -/
def stepE (g : List (String × List JValue)) (e : RaceEntry) : List (String × List JValue) :=
  addRaceData e.country e.course e.off_time e.race_data g

/-- `timestamp` field of a pushed record. -/
def jTimestamp : JValue → Option JValue
  | .obj fields => dictGet fields "timestamp"
  | _ => none

/-- A record the publisher loop can process without raising: a JSON object
whose `race_time` field, when present, is a string. -/
def goodRecord : JValue → Bool
  | .obj fields =>
    (match dictGet fields "race_time" with
     | none => true
     | some (.str _) => true
     | some _ => false)
  | _ => false

/-- The in-place mutation the loop performs on a processable record. -/
def stampJ (ts : String) : JValue → JValue
  | .obj fields => .obj (stampRecord ts fields)
  | v => v

/-- The key/value pair `Actor.set_value` receives for a processable
record. -/
def recordKvEntry (date_arg ts : String) : JValue → String × JValue
  | .obj fields =>
    let fields2 := stampRecord ts fields
    (kvFilename date_arg fields2 ((raceTimeOf fields2).getD "unknown"), .obj fields2)
  | v => ("", v)

/-! ### Concrete instances used by witnesses and counterexamples -/

/-- Input carrying an explicit `command` and no `date`. -/
def envInputW : Env :=
  ⟨some [("command", .str "racedays")], true, true, true,
   .completed 0 "" "", none, fun _ => none, "T"⟩

/-- A directory listing with two `.json` files and one other file. -/
def lC1 : List FileEntry :=
  [⟨"2025-10-10.json", 3⟩, ⟨"readme.txt", 99⟩, ⟨"2025-10-11.json", 9⟩]

/-- An environment that reaches the output locator over `lC1`. -/
def envC1w : Env :=
  ⟨none, true, true, true, .completed 0 "" "", some lC1,
   fun _ => some (.arr []), "T"⟩

/-- Two processable records. -/
def fieldsC9a : JObj := [("race_id", .num 1)]

def fieldsC9b : JObj := [("race_id", .num 2)]

/-- An environment whose artifact holds the two records above. -/
def envC9w : Env :=
  ⟨none, true, true, true, .completed 0 "" "", some [⟨"x.json", 1⟩],
   fun _ => some (.arr [.obj fieldsC9a, .obj fieldsC9b]), "TS"⟩

/-- An environment whose subprocess times out. -/
def envC5w : Env :=
  ⟨none, true, true, true, .timedOut, some [⟨"x.json", 1⟩],
   fun _ => some (.arr []), "T"⟩

/-- An environment with no working copy and a failing clone. -/
def envC8w : Env :=
  ⟨none, false, false, true, .completed 0 "" "", some [⟨"x.json", 1⟩],
   fun _ => some (.arr []), "T"⟩

/-- One processable record. -/
def recC2 : JValue :=
  .obj [("race_id", .num 7), ("racecourse_name", .str "Ascot"),
        ("race_time", .str "13:05")]

/-- An environment whose artifact is a one-record list. -/
def envC2w : Env :=
  ⟨none, true, true, true, .completed 0 "" "", some [⟨"x.json", 1⟩],
   fun _ => some (.arr [recC2]), "TS"⟩

/-- An environment whose artifact parses to the bare number `2`: the claim
asserts the wrapped record is pushed and stored, but the timestamp
assignment raises and the run fails with nothing published. -/
def envC2cex : Env :=
  ⟨none, true, true, true, .completed 0 "" "", some [⟨"x.json", 1⟩],
   fun _ => some (.num 2), "TS"⟩

/-- A day with one qualifying race at Ascot, a non-dict entry at Ascot and
a dict-without-runners entry at York. -/
def dataC10 : CardData :=
  [("gb", [("Ascot", [("13:00", .obj [("runners", .arr [])]), ("14:00", .num 3)]),
           ("York", [("15:00", .obj [("going", .str "soft")])])])]

/-- The single augmented race `dataC10` produces. -/
def vC10 : JValue := full_race "gb" "Ascot" "13:00" [("runners", .arr [])]

/-- v1 environment whose stdout fails to parse as JSON. -/
def envV1w : EnvV1 := ⟨none, true, true, true, .completed 0 "plain text" "", none⟩

/-- v1 environment whose stdout is `42`, which parses to the number 42. -/
def envV1cex : EnvV1 := ⟨none, true, true, true, .completed 0 "42" "", some (.num 42)⟩

/-! ### Dictionary lemmas -/

theorem dictGet_dictSet_self (d : JObj) (k : String) (v : JValue) :
    dictGet (dictSet d k v) k = some v := by
  induction d with
  | nil => simp [dictSet, dictGet]
  | cons p rest ih =>
    obtain ⟨k2, v2⟩ := p
    by_cases h : k2 = k
    · simp [dictSet, dictGet, h]
    · simp [dictSet, dictGet, h, ih]

theorem dictGet_dictSet_ne (d : JObj) (k k2 : String) (v : JValue) (h : k2 ≠ k) :
    dictGet (dictSet d k v) k2 = dictGet d k2 := by
  induction d with
  | nil => simp [dictSet, dictGet, Ne.symm h]
  | cons p rest ih =>
    obtain ⟨k3, v3⟩ := p
    by_cases h3 : k3 = k
    · subst h3
      simp [dictSet, dictGet, Ne.symm h]
    · simp only [dictSet, if_neg h3, dictGet]
      by_cases h4 : k3 = k2 <;> simp [h4, ih]

/-- C4: for every race record processed by the publisher, the stamped
record maps every key other than `timestamp` to exactly the value it had
in the artifact, the only augmentation being the capture-timestamp field;
and the record that the loop pushes for a dict item is precisely the
stamped record. -/
theorem stamp_frame_spec (ts : String) (fields : JObj) (k : String) (hk : k ≠ "timestamp") :
    dictGet (stampRecord ts fields) k = dictGet fields k ∧
    dictGet (stampRecord ts fields) "timestamp" = some (.str ts) ∧
    ∀ (date_arg : String) (acc : Sinks),
      (pushItem date_arg ts acc (.obj fields)).1.dataset
        = acc.dataset ++ [.obj (stampRecord ts fields)] := by
  refine ⟨dictGet_dictSet_ne fields "timestamp" k (.str ts) hk,
          dictGet_dictSet_self fields "timestamp" (.str ts), ?_⟩
  intro date_arg acc
  cases h : raceTimeOf (stampRecord ts fields) <;> simp [pushItem, h]

/-- Witness for C4 at a concrete record and key. -/
theorem stamp_frame_witness :
    dictGet (stampRecord "TS" [("race_id", .num 7)]) "race_id" = some (.num 7) ∧
    dictGet (stampRecord "TS" [("race_id", .num 7)]) "timestamp" = some (.str "TS") ∧
    (pushItem "today" "TS" ⟨[], []⟩ (.obj [("race_id", .num 7)])).1.dataset
      = [] ++ [.obj (stampRecord "TS" [("race_id", .num 7)])] := by
  have h := stamp_frame_spec "TS" [("race_id", .num 7)] "race_id" (by decide)
  exact ⟨h.1, h.2.1, h.2.2 "today" ⟨[], []⟩⟩

/-- C6: the command name resolves to the provided `command` value, or to
`racecards` when absent (also when the whole input is absent), and the
date argument resolves to the provided `date` value, or to `today` when
absent. -/
theorem input_defaults_spec (env : Env) (env1 : EnvV1) :
    ((env.inputData = none →
        resolvedCommand env = .str "racecards" ∧ resolvedDate env = .str "today") ∧
     ∀ d, env.inputData = some d →
      ((dictGet d "command" = none → resolvedCommand env = .str "racecards") ∧
       (∀ v, dictGet d "command" = some v → resolvedCommand env = v) ∧
       (dictGet d "date" = none → resolvedDate env = .str "today") ∧
       (∀ v, dictGet d "date" = some v → resolvedDate env = v))) ∧
    ((env1.inputData = none →
        resolvedCommandV1 env1 = .str "racecards" ∧ resolvedDateV1 env1 = .str "today") ∧
     ∀ d, env1.inputData = some d →
      ((dictGet d "command" = none → resolvedCommandV1 env1 = .str "racecards") ∧
       (∀ v, dictGet d "command" = some v → resolvedCommandV1 env1 = v) ∧
       (dictGet d "date" = none → resolvedDateV1 env1 = .str "today") ∧
       (∀ v, dictGet d "date" = some v → resolvedDateV1 env1 = v))) := by
  refine ⟨⟨?_, ?_⟩, ?_, ?_⟩
  · intro h
    simp [resolvedCommand, resolvedDate, h, dictGetD, dictGet]
  · intro d hd
    refine ⟨fun h => ?_, fun v h => ?_, fun h => ?_, fun v h => ?_⟩ <;>
      simp [resolvedCommand, resolvedDate, hd, dictGetD, h]
  · intro h
    simp [resolvedCommandV1, resolvedDateV1, h, dictGetD, dictGet]
  · intro d hd
    refine ⟨fun h => ?_, fun v h => ?_, fun h => ?_, fun v h => ?_⟩ <;>
      simp [resolvedCommandV1, resolvedDateV1, hd, dictGetD, h]

/-- Witness for C6: explicit `command`, absent `date`, and an absent input
for the v1 variant. -/
theorem input_defaults_witness :
    resolvedCommand envInputW = .str "racedays" ∧ resolvedDate envInputW = .str "today" ∧
    resolvedDateV1 envV1w = .str "today" :=
  ⟨(((input_defaults_spec envInputW envV1w).1).2 [("command", .str "racedays")] rfl).2.1 _ rfl,
   (((input_defaults_spec envInputW envV1w).1).2 [("command", .str "racedays")] rfl).2.2.1 rfl,
   (((input_defaults_spec envInputW envV1w).2).1 rfl).2⟩

/-! ### Sorting lemmas for the output locator -/

theorem mem_insertDesc {a x : FileEntry} {l : List FileEntry} :
    a ∈ insertDesc x l ↔ a = x ∨ a ∈ l := by
  induction l with
  | nil => simp [insertDesc]
  | cons y ys ih =>
    by_cases h : x.mtime < y.mtime
    · simp only [insertDesc, if_pos h, List.mem_cons, ih]
      tauto
    · simp only [insertDesc, if_neg h, List.mem_cons]

theorem sorted_insertDesc {x : FileEntry} {l : List FileEntry}
    (hl : l.Pairwise (fun a b => b.mtime ≤ a.mtime)) :
    (insertDesc x l).Pairwise (fun a b => b.mtime ≤ a.mtime) := by
  induction l with
  | nil => simp [insertDesc]
  | cons y ys ih =>
    rw [List.pairwise_cons] at hl
    by_cases h : x.mtime < y.mtime
    · rw [insertDesc, if_pos h, List.pairwise_cons]
      refine ⟨fun b hb => ?_, ih hl.2⟩
      rcases mem_insertDesc.mp hb with rfl | hb
      · exact Nat.le_of_lt h
      · exact hl.1 b hb
    · rw [insertDesc, if_neg h, List.pairwise_cons]
      refine ⟨fun b hb => ?_, List.pairwise_cons.mpr hl⟩
      rcases List.mem_cons.mp hb with rfl | hb
      · exact Nat.le_of_not_lt h
      · exact Nat.le_trans (hl.1 b hb) (Nat.le_of_not_lt h)

theorem mem_sortDesc {a : FileEntry} {l : List FileEntry} :
    a ∈ sortDesc l ↔ a ∈ l := by
  induction l with
  | nil => simp [sortDesc]
  | cons x xs ih => simp [sortDesc, mem_insertDesc, ih]

theorem sorted_sortDesc (l : List FileEntry) :
    (sortDesc l).Pairwise (fun a b => b.mtime ≤ a.mtime) := by
  induction l with
  | nil => simp [sortDesc]
  | cons x xs ih => exact sorted_insertDesc ih

/-- The file the locator picks is a `.json` entry of the listing with
maximal modification time. -/
theorem selectOutputFile_spec (l : List FileEntry) (h : jsonFilesOf l ≠ []) :
    ∃ f, selectOutputFile (some l) = some f ∧ f ∈ jsonFilesOf l ∧
      ∀ g ∈ jsonFilesOf l, g.mtime ≤ f.mtime := by
  cases hs : sortDesc (jsonFilesOf l) with
  | nil =>
    obtain ⟨a, ha⟩ := List.exists_mem_of_ne_nil _ h
    have := mem_sortDesc.mpr ha
    rw [hs] at this
    exact absurd this (List.not_mem_nil a)
  | cons f rest =>
    refine ⟨f, by simp [selectOutputFile, hs], ?_, ?_⟩
    · have hf : f ∈ sortDesc (jsonFilesOf l) := by
        rw [hs]; exact List.Mem.head rest
      exact mem_sortDesc.mp hf
    · intro g hg
      have hg2 : g ∈ sortDesc (jsonFilesOf l) := mem_sortDesc.mpr hg
      rw [hs] at hg2
      rcases List.mem_cons.mp hg2 with rfl | hg2
      · exact Nat.le_refl _
      · have hp := sorted_sortDesc (jsonFilesOf l)
        rw [hs, List.pairwise_cons] at hp
        exact hp.1 g hg2

/-- C1: in a run that reaches the locator, when the listing of the output
directory has at least one `.json` entry the selected artifact is a
`.json` entry of maximal modification time; when the directory is missing
or holds no `.json` file, no artifact is selected, the run fails and
nothing is published. -/
theorem output_locator_spec (env : Env) (l : List FileEntry) (date_arg out err : String)
    (hcl : (!env.rpscrapePresent && !env.cloneSucceeds) = false)
    (hsc : env.scriptExists = true)
    (hdate : resolvedDate env = .str date_arg)
    (hrun : env.runOutcome = .completed 0 out err) :
    (env.racecardsDir = some l → jsonFilesOf l ≠ [] →
       ∃ f, selectOutputFile env.racecardsDir = some f ∧ f ∈ jsonFilesOf l ∧
         ∀ g ∈ jsonFilesOf l, g.mtime ≤ f.mtime) ∧
    ((env.racecardsDir = none ∨ env.racecardsDir = some l ∧ jsonFilesOf l = []) →
       selectOutputFile env.racecardsDir = none ∧
       (runMain env).success = false ∧ (runMain env).dataset = [] ∧
       (runMain env).kv = []) := by
  constructor
  · intro hdir hne
    rw [hdir]
    exact selectOutputFile_spec l hne
  · intro hcase
    have hsel : selectOutputFile env.racecardsDir = none := by
      rcases hcase with hdir | ⟨hdir, hne⟩
      · rw [hdir]; rfl
      · rw [hdir]
        simp [selectOutputFile, hne, sortDesc]
    refine ⟨hsel, ?_⟩
    simp [runMain, hcl, hsc, hdate, hrun, runScriptPhase, hsel]

/-- Witness for C1: a directory with two `.json` files and one other file. -/
theorem output_locator_witness :
    ∃ f, selectOutputFile envC1w.racecardsDir = some f ∧ f ∈ jsonFilesOf lC1 ∧
      ∀ g ∈ jsonFilesOf lC1, g.mtime ≤ f.mtime :=
  (output_locator_spec envC1w lC1 "today" "" "" rfl rfl rfl rfl).1 rfl (by decide)

/-! ### Shape lemmas for the publisher loop -/

theorem pushLoop_cons_fst (date_arg ts : String) (item : JValue) (rest : List JValue)
    (acc : Sinks) :
    (pushLoop date_arg ts (item :: rest) acc).1 =
      (match pushItem date_arg ts acc item with
       | (acc2, none) => acc2
       | (acc2, some _) => (pushLoop date_arg ts rest acc2).1) := by
  rw [pushLoop]
  rcases pushItem date_arg ts acc item with ⟨acc2, o⟩
  cases o with
  | none => rfl
  | some st =>
    rcases hpl : pushLoop date_arg ts rest acc2 with ⟨acc3, o2⟩
    cases o2 <;> simp [hpl]

theorem pushItem_fst_dataset (date_arg ts : String) (acc : Sinks) (item : JValue) :
    (pushItem date_arg ts acc item).1.dataset = acc.dataset ∨
    ∃ fields, (pushItem date_arg ts acc item).1.dataset
        = acc.dataset ++ [.obj (stampRecord ts fields)] := by
  rcases item with _ | b | n | s | xs | fields
  · exact Or.inl rfl
  · exact Or.inl rfl
  · exact Or.inl rfl
  · exact Or.inl rfl
  · exact Or.inl rfl
  · refine Or.inr ⟨fields, ?_⟩
    cases h : raceTimeOf (stampRecord ts fields) <;> simp [pushItem, h]

theorem pushLoop_dataset_mem (date_arg ts : String) (records : List JValue) (acc : Sinks)
    (r : JValue) (hr : r ∈ (pushLoop date_arg ts records acc).1.dataset) :
    r ∈ acc.dataset ∨ ∃ fields, r = .obj (stampRecord ts fields) := by
  induction records generalizing acc with
  | nil => exact Or.inl hr
  | cons item rest ih =>
    rw [pushLoop_cons_fst] at hr
    rcases hpi : pushItem date_arg ts acc item with ⟨acc2, o⟩
    rw [hpi] at hr
    have hd := pushItem_fst_dataset date_arg ts acc item
    rw [hpi] at hd
    have hd2 : acc2.dataset = acc.dataset ∨
        ∃ fields, acc2.dataset = acc.dataset ++ [JValue.obj (stampRecord ts fields)] := hd
    have hin : r ∈ acc2.dataset ∨ ∃ fields, r = JValue.obj (stampRecord ts fields) := by
      cases o with
      | none => exact Or.inl hr
      | some st =>
        have hr2 : r ∈ (pushLoop date_arg ts rest acc2).1.dataset := hr
        exact ih acc2 hr2
    rcases hin with hin | hin
    · rcases hd2 with hd2 | ⟨fields, hd2⟩
      · rw [hd2] at hin
        exact Or.inl hin
      · rw [hd2] at hin
        rcases List.mem_append.mp hin with h2 | h2
        · exact Or.inl h2
        · exact Or.inr ⟨fields, List.mem_singleton.mp h2⟩
    · exact Or.inr hin

theorem processArtifact_dataset_mem (cs da ts : String) (data0 : JValue) (r : JValue)
    (hr : r ∈ (processArtifact cs da ts data0).2.dataset) :
    ∃ fields, r = JValue.obj (stampRecord ts fields) := by
  simp only [processArtifact] at hr
  rcases hpl : pushLoop da ts (normalizeRecords data0) ⟨[], []⟩ with ⟨acc, o⟩
  rw [hpl] at hr
  have hin : r ∈ acc.dataset := by
    cases o with
    | none => exact hr
    | some l => exact hr
  have := pushLoop_dataset_mem da ts (normalizeRecords data0) ⟨[], []⟩ r (by rw [hpl]; exact hin)
  rcases this with h | h
  · exact absurd h (List.not_mem_nil r)
  · exact h

theorem runScriptPhase_dataset_mem (env : Env) (ca : Bool) (d : String) (r : JValue)
    (hr : r ∈ (runScriptPhase env ca d).dataset) :
    ∃ fields, r = JValue.obj (stampRecord env.timestamp fields) := by
  unfold runScriptPhase at hr
  cases hro : env.runOutcome with
  | timedOut =>
    simp only [hro] at hr
    exact absurd hr (List.not_mem_nil r)
  | completed rc o e =>
    simp only [hro] at hr
    by_cases hrc : rc ≠ 0
    · rw [if_pos hrc] at hr
      exact absurd hr (List.not_mem_nil r)
    · rw [if_neg hrc] at hr
      cases hsel : selectOutputFile env.racecardsDir with
      | none =>
        simp only [hsel] at hr
        exact absurd hr (List.not_mem_nil r)
      | some f =>
        simp only [hsel] at hr
        cases hrj : env.readJson f.name with
        | none =>
          simp only [hrj] at hr
          exact absurd hr (List.not_mem_nil r)
        | some data0 =>
          simp only [hrj] at hr
          exact processArtifact_dataset_mem _ _ _ _ _ hr

theorem runMain_dataset_mem (env : Env) (r : JValue)
    (hr : r ∈ (runMain env).dataset) :
    ∃ fields, r = JValue.obj (stampRecord env.timestamp fields) := by
  unfold runMain at hr
  by_cases h1 : (!env.rpscrapePresent && !env.cloneSucceeds) = true
  · rw [if_pos h1] at hr
    exact absurd hr (List.not_mem_nil r)
  · rw [if_neg h1] at hr
    by_cases h2 : (!env.scriptExists) = true
    · rw [if_pos h2] at hr
      exact absurd hr (List.not_mem_nil r)
    · rw [if_neg h2] at hr
      cases hd : resolvedDate env with
      | str d =>
        rw [hd] at hr
        exact runScriptPhase_dataset_mem env _ d r hr
      | null => rw [hd] at hr; exact absurd hr (List.not_mem_nil r)
      | bool b => rw [hd] at hr; exact absurd hr (List.not_mem_nil r)
      | num n => rw [hd] at hr; exact absurd hr (List.not_mem_nil r)
      | arr xs => rw [hd] at hr; exact absurd hr (List.not_mem_nil r)
      | obj fs => rw [hd] at hr; exact absurd hr (List.not_mem_nil r)

/-- C9: every record pushed in one run carries the timestamp computed once
before the loop, so no two records of the same run carry different capture
timestamps. -/
theorem uniform_timestamp_spec (env : Env) (r1 r2 : JValue)
    (h1 : r1 ∈ (runMain env).dataset) (h2 : r2 ∈ (runMain env).dataset) :
    jTimestamp r1 = some (.str env.timestamp) ∧ jTimestamp r1 = jTimestamp r2 := by
  obtain ⟨f1, hf1⟩ := runMain_dataset_mem env r1 h1
  obtain ⟨f2, hf2⟩ := runMain_dataset_mem env r2 h2
  have e1 : jTimestamp r1 = some (.str env.timestamp) := by
    rw [hf1]
    exact dictGet_dictSet_self f1 "timestamp" (.str env.timestamp)
  have e2 : jTimestamp r2 = some (.str env.timestamp) := by
    rw [hf2]
    exact dictGet_dictSet_self f2 "timestamp" (.str env.timestamp)
  exact ⟨e1, by rw [e1, e2]⟩

/-- Witness for C9: a run with two records. -/
theorem uniform_timestamp_witness :
    jTimestamp (JValue.obj (stampRecord "TS" fieldsC9a)) = some (.str "TS") ∧
    jTimestamp (JValue.obj (stampRecord "TS" fieldsC9a))
      = jTimestamp (JValue.obj (stampRecord "TS" fieldsC9b)) :=
  uniform_timestamp_spec envC9w
    (JValue.obj (stampRecord "TS" fieldsC9a)) (JValue.obj (stampRecord "TS" fieldsC9b))
    (by exact List.Mem.head _) (by exact List.Mem.tail _ (List.Mem.head _))

/-! ### Failure-case lemmas -/

theorem runScriptPhase_of_failCause (env : Env) (ca : Bool) (d : String)
    (hfc : failCause env = true) :
    runScriptPhase env ca d = ⟨false, [], [], ca, true⟩ := by
  unfold runScriptPhase
  cases hro : env.runOutcome with
  | timedOut => simp [hro]
  | completed rc o e =>
    unfold failCause at hfc
    simp only [hro] at hfc ⊢
    by_cases hrc : rc = 0
    · subst hrc
      simp only [bne_self_eq_false, Bool.false_or] at hfc
      rw [if_neg (by omega : ¬(0 : Int) ≠ 0)]
      cases hsel : selectOutputFile env.racecardsDir with
      | none => simp [hsel]
      | some f =>
        simp only [hsel] at hfc ⊢
        cases hrj : env.readJson f.name with
        | none => simp [hrj]
        | some d0 =>
          rw [hrj] at hfc
          simp at hfc
    · rw [if_pos hrc]

theorem failCause_false_of_success (env : Env) (ca : Bool) (d : String)
    (hs : (runScriptPhase env ca d).success = true) :
    failCause env = false := by
  unfold runScriptPhase at hs
  unfold failCause
  cases hro : env.runOutcome with
  | timedOut =>
    simp only [hro] at hs
    simp at hs
  | completed rc o e =>
    simp only [hro] at hs ⊢
    by_cases hrc : rc = 0
    · subst hrc
      rw [if_neg (by omega : ¬(0 : Int) ≠ 0)] at hs
      simp only [bne_self_eq_false, Bool.false_or]
      cases hsel : selectOutputFile env.racecardsDir with
      | none =>
        simp only [hsel] at hs
        simp at hs
      | some f =>
        simp only [hsel] at hs ⊢
        cases hrj : env.readJson f.name with
        | none =>
          simp only [hrj] at hs
          simp at hs
        | some d0 => simp [hrj]
    · rw [if_pos hrc] at hs
      simp at hs

/-- C5: when the subprocess times out, exits with a nonzero status, leaves
no JSON artifact, or leaves an artifact that fails to parse, the run fails
and publishes nothing; a run that completes without `Actor.fail` is only
possible when none of these causes is present. -/
theorem failure_cases_spec (env : Env) :
    (failCause env = true →
       (runMain env).success = false ∧ (runMain env).dataset = [] ∧
       (runMain env).kv = []) ∧
    ((runMain env).success = true → failCause env = false) := by
  constructor
  · intro hfc
    unfold runMain
    by_cases h1 : (!env.rpscrapePresent && !env.cloneSucceeds) = true
    · rw [if_pos h1]
      exact ⟨rfl, rfl, rfl⟩
    · rw [if_neg h1]
      by_cases h2 : (!env.scriptExists) = true
      · rw [if_pos h2]
        exact ⟨rfl, rfl, rfl⟩
      · rw [if_neg h2]
        rcases hd : resolvedDate env with _ | b | n | d | xs | fs <;> simp only [hd]
        · simp
        · simp
        · simp
        · rw [runScriptPhase_of_failCause env (!env.rpscrapePresent) d hfc]
          exact ⟨rfl, rfl, rfl⟩
        · simp
        · simp
  · intro hs
    unfold runMain at hs
    by_cases h1 : (!env.rpscrapePresent && !env.cloneSucceeds) = true
    · rw [if_pos h1] at hs
      simp at hs
    · rw [if_neg h1] at hs
      by_cases h2 : (!env.scriptExists) = true
      · rw [if_pos h2] at hs
        simp at hs
      · rw [if_neg h2] at hs
        rcases hd : resolvedDate env with _ | b | n | d | xs | fs <;> simp only [hd] at hs
        · simp at hs
        · simp at hs
        · simp at hs
        · exact failCause_false_of_success env (!env.rpscrapePresent) d hs
        · simp at hs
        · simp at hs

/-- Witness for C5: a timed-out subprocess. -/
theorem failure_cases_witness :
    (runMain envC5w).success = false ∧ (runMain envC5w).dataset = [] ∧
    (runMain envC5w).kv = [] :=
  (failure_cases_spec envC5w).1 rfl

theorem runScriptPhase_cloneAttempted (env : Env) (ca : Bool) (d : String) :
    (runScriptPhase env ca d).cloneAttempted = ca := by
  unfold runScriptPhase
  cases hro : env.runOutcome with
  | timedOut => simp [hro]
  | completed rc o e =>
    simp only [hro]
    by_cases hrc : rc ≠ 0
    · rw [if_pos hrc]
    · rw [if_neg hrc]
      cases hsel : selectOutputFile env.racecardsDir with
      | none => rfl
      | some f =>
        cases hrj : env.readJson f.name with
        | none => simp [hrj]
        | some d0 => simp [hrj]

/-- C8: a clone is attempted exactly when the working copy is absent; and
when the working copy is absent and the clone fails, the run fails without
executing the script and publishes nothing. -/
theorem clone_provision_spec (env : Env) :
    ((runMain env).cloneAttempted = !env.rpscrapePresent) ∧
    (env.rpscrapePresent = false → env.cloneSucceeds = false →
      (runMain env).success = false ∧ (runMain env).scriptExecuted = false ∧
      (runMain env).dataset = [] ∧ (runMain env).kv = []) := by
  constructor
  · unfold runMain
    by_cases h1 : (!env.rpscrapePresent && !env.cloneSucceeds) = true
    · rw [if_pos h1]
    · rw [if_neg h1]
      by_cases h2 : (!env.scriptExists) = true
      · rw [if_pos h2]
      · rw [if_neg h2]
        rcases hd : resolvedDate env with _ | b | n | d | xs | fs <;> simp only [hd]
        exact runScriptPhase_cloneAttempted env (!env.rpscrapePresent) d
  · intro hp hc
    unfold runMain
    have h1 : (!env.rpscrapePresent && !env.cloneSucceeds) = true := by
      rw [hp, hc]
      rfl
    rw [if_pos h1]
    exact ⟨rfl, rfl, rfl, rfl⟩

/-- Witness for C8: absent working copy, failing clone. -/
theorem clone_provision_witness :
    (runMain envC8w).success = false ∧ (runMain envC8w).scriptExecuted = false ∧
    (runMain envC8w).dataset = [] ∧ (runMain envC8w).kv = [] :=
  (clone_provision_spec envC8w).2 rfl rfl

/-! ### The publisher on processable records -/

theorem pushItem_good (date_arg ts : String) (acc : Sinks) (r : JValue)
    (hr : goodRecord r = true) :
    pushItem date_arg ts acc r =
      (⟨acc.dataset ++ [stampJ ts r], acc.kv ++ [recordKvEntry date_arg ts r]⟩,
       some (stampJ ts r)) := by
  rcases r with _ | b | n | s | xs | fields
  · simp [goodRecord] at hr
  · simp [goodRecord] at hr
  · simp [goodRecord] at hr
  · simp [goodRecord] at hr
  · simp [goodRecord] at hr
  · have hframe : dictGet (stampRecord ts fields) "race_time" = dictGet fields "race_time" :=
      dictGet_dictSet_ne fields "timestamp" "race_time" (.str ts) (by decide)
    cases hrt : dictGet fields "race_time" with
    | none =>
      have hrt2 : raceTimeOf (stampRecord ts fields) = some (stripChar ':' "unknown") := by
        unfold raceTimeOf
        rw [hframe, hrt]
      simp [pushItem, hrt2, recordKvEntry, stampJ]
    | some v =>
      rcases v with _ | b2 | n2 | s2 | xs2 | fs2
      · simp [goodRecord, hrt] at hr
      · simp [goodRecord, hrt] at hr
      · simp [goodRecord, hrt] at hr
      · have hrt2 : raceTimeOf (stampRecord ts fields) = some (stripChar ':' s2) := by
          unfold raceTimeOf
          rw [hframe, hrt]
        simp [pushItem, hrt2, recordKvEntry, stampJ]
      · simp [goodRecord, hrt] at hr
      · simp [goodRecord, hrt] at hr

theorem pushLoop_good (date_arg ts : String) (records : List JValue) (acc : Sinks)
    (h : ∀ r ∈ records, goodRecord r = true) :
    pushLoop date_arg ts records acc =
      (⟨acc.dataset ++ records.map (stampJ ts),
        acc.kv ++ records.map (recordKvEntry date_arg ts)⟩,
       some (records.map (stampJ ts))) := by
  induction records generalizing acc with
  | nil => simp [pushLoop]
  | cons r rest ih =>
    have h2 := ih ⟨acc.dataset ++ [stampJ ts r], acc.kv ++ [recordKvEntry date_arg ts r]⟩
        (fun x hx => h x (List.mem_cons_of_mem r hx))
    rw [pushLoop, pushItem_good date_arg ts acc r (h r (List.mem_cons_self r rest))]
    simp [h2]

/-- C2 (amended): given a successfully parsed artifact, the loaded value is
normalized to a list (a non-list value becomes a one-element list) and —
provided every normalized record is a JSON object whose `race_time` field,
when present, is a string — every record is stamped with the capture
timestamp, pushed to the dataset sink and stored in the key-value sink
under the filename derived from the date argument, course name, race time
and race id, after which the full batch is stored once under
`complete_{command}_{date_arg}.json`. -/
theorem record_publisher_spec (env : Env) (date_arg out err : String)
    (f : FileEntry) (data0 : JValue)
    (hcl : (!env.rpscrapePresent && !env.cloneSucceeds) = false)
    (hsc : env.scriptExists = true)
    (hdate : resolvedDate env = .str date_arg)
    (hrun : env.runOutcome = .completed 0 out err)
    (hsel : selectOutputFile env.racecardsDir = some f)
    (hread : env.readJson f.name = some data0)
    (hgood : ∀ r ∈ normalizeRecords data0, goodRecord r = true) :
    (∀ v : JValue, (∀ xs, v ≠ JValue.arr xs) → normalizeRecords v = [v]) ∧
    (∀ xs, normalizeRecords (JValue.arr xs) = xs) ∧
    runMain env =
      ⟨true,
       (normalizeRecords data0).map (stampJ env.timestamp),
       (normalizeRecords data0).map (recordKvEntry date_arg env.timestamp)
         ++ [("complete_" ++ pyStr (resolvedCommand env) ++ "_" ++ date_arg ++ ".json",
              JValue.arr ((normalizeRecords data0).map (stampJ env.timestamp)))],
       !env.rpscrapePresent, true⟩ := by
  refine ⟨?_, fun xs => rfl, ?_⟩
  · intro v hv
    rcases v with _ | b | n | s | xs | fs
    · rfl
    · rfl
    · rfl
    · rfl
    · exact absurd rfl (hv xs)
    · rfl
  · unfold runMain
    rw [if_neg (by rw [hcl]; simp : ¬((!env.rpscrapePresent && !env.cloneSucceeds) = true))]
    rw [if_neg (by rw [hsc]; simp : ¬((!env.scriptExists) = true))]
    simp only [hdate]
    unfold runScriptPhase
    simp only [hrun]
    rw [if_neg (by omega : ¬(0 : Int) ≠ 0)]
    simp only [hsel, hread, processArtifact]
    rw [pushLoop_good date_arg env.timestamp (normalizeRecords data0) ⟨[], []⟩ hgood]
    simp

/-- Witness for C2: a one-record artifact. -/
theorem record_publisher_witness :
    runMain envC2w =
      ⟨true, [stampJ "TS" recC2],
       [recordKvEntry "today" "TS" recC2,
        ("complete_racecards_today.json", JValue.arr [stampJ "TS" recC2])],
       false, true⟩ :=
  (record_publisher_spec envC2w "today" "" "" ⟨"x.json", 1⟩ (.arr [recC2])
    rfl rfl rfl rfl rfl rfl (by decide)).2.2

/-- Counterexample to C2 as stated: the artifact parses successfully to the
bare number `2`, the claim therefore asserts the wrapped record is stamped,
pushed and stored, yet the timestamp assignment raises and the run fails
with both sinks empty. -/
theorem record_publisher_cex :
    (runMain envC2cex).success = false ∧ (runMain envC2cex).dataset = [] ∧
    (runMain envC2cex).kv = [] :=
  ⟨rfl, rfl, rfl⟩

/-! ### Course-splitter lemmas -/

theorem groupGet_groupAppend_self (g : List (String × List JValue)) (k : String) (v : JValue) :
    groupGet (groupAppend g k v) k = groupGet g k ++ [v] := by
  induction g with
  | nil => simp [groupAppend, groupGet]
  | cons p rest ih =>
    obtain ⟨k2, vs⟩ := p
    by_cases h : k2 = k
    · subst h
      simp [groupAppend, groupGet]
    · simp [groupAppend, groupGet, h, ih]

theorem groupGet_groupAppend_ne (g : List (String × List JValue)) (k c : String) (v : JValue)
    (h : c ≠ k) :
    groupGet (groupAppend g k v) c = groupGet g c := by
  induction g with
  | nil => simp [groupAppend, groupGet, Ne.symm h]
  | cons p rest ih =>
    obtain ⟨k2, vs⟩ := p
    by_cases h2 : k2 = k
    · have hkc : ¬k2 = c := fun hh => h (hh.symm.trans h2)
      rw [groupAppend, if_pos h2]
      simp [groupGet, hkc]
    · rw [groupAppend, if_neg h2]
      by_cases h3 : k2 = c <;> simp [groupGet, h3, ih]

theorem countKey_groupAppend_self (g : List (String × List JValue)) (k : String) (v : JValue) :
    countKey (groupAppend g k v) k = if countKey g k = 0 then 1 else countKey g k := by
  induction g with
  | nil => simp [groupAppend, countKey]
  | cons p rest ih =>
    obtain ⟨k2, vs⟩ := p
    by_cases h : k2 = k
    · subst h
      simp [groupAppend, countKey, List.countP_cons]
    · simp only [groupAppend, if_neg h, countKey, List.countP_cons] at ih ⊢
      have hb : ((k2, vs).1 == k) = false := by
        simp [h]
      simp only [hb, if_false, Nat.add_zero, Bool.false_eq_true]
      rw [ih]

theorem countKey_groupAppend_ne (g : List (String × List JValue)) (k c : String) (v : JValue)
    (h : c ≠ k) :
    countKey (groupAppend g k v) c = countKey g c := by
  induction g with
  | nil => simp [groupAppend, countKey, Ne.symm h]
  | cons p rest ih =>
    obtain ⟨k2, vs⟩ := p
    by_cases h2 : k2 = k
    · rw [groupAppend, if_pos h2]
      simp [countKey, List.countP_cons]
    · rw [groupAppend, if_neg h2]
      simp only [countKey, List.countP_cons] at ih ⊢
      rw [ih]

theorem groupAppend_wf (g : List (String × List JValue)) (k : String) (v : JValue)
    (hwf : ∀ c, countKey g c = if (groupGet g c).isEmpty then 0 else 1) :
    ∀ c, countKey (groupAppend g k v) c
        = if (groupGet (groupAppend g k v) c).isEmpty then 0 else 1 := by
  intro c
  by_cases hc : c = k
  · subst hc
    rw [countKey_groupAppend_self, groupGet_groupAppend_self, hwf c]
    by_cases h2 : (groupGet g c).isEmpty = true <;> simp [h2]
  · rw [countKey_groupAppend_ne g k c v hc, groupGet_groupAppend_ne g k c v hc]
    exact hwf c

theorem stepE_eq (g : List (String × List JValue)) (e : RaceEntry) :
    stepE g e = (match entryRace e with
      | some fr => groupAppend g e.course fr
      | none => g) := by
  rcases e with ⟨co, cn, ot, rd⟩
  rcases rd with _ | b | n | s | xs | fields
  · rfl
  · rfl
  · rfl
  · rfl
  · rfl
  · by_cases h : hasKey fields "runners" = true <;>
      simp [stepE, addRaceData, entryRace, h]

theorem foldl_stepE_get (entries : List RaceEntry) (g : List (String × List JValue))
    (c : String) :
    groupGet (entries.foldl stepE g) c
      = groupGet g c
          ++ entries.filterMap (fun e => if e.course = c then entryRace e else none) := by
  induction entries generalizing g with
  | nil => simp
  | cons e rest ih =>
    rw [List.foldl_cons, ih, stepE_eq]
    cases her : entryRace e with
    | none =>
      by_cases hcc : e.course = c <;> simp [List.filterMap_cons, hcc, her]
    | some fr =>
      by_cases hcc : e.course = c
      · subst hcc
        simp [List.filterMap_cons, her, groupGet_groupAppend_self]
      · have hne : c ≠ e.course := fun hh => hcc hh.symm
        simp [List.filterMap_cons, hcc, her, groupGet_groupAppend_ne g e.course c fr hne]

theorem foldl_stepE_wf (entries : List RaceEntry) (g : List (String × List JValue))
    (hwf : ∀ c, countKey g c = if (groupGet g c).isEmpty then 0 else 1) :
    ∀ c, countKey (entries.foldl stepE g) c
        = if (groupGet (entries.foldl stepE g) c).isEmpty then 0 else 1 := by
  induction entries generalizing g with
  | nil => exact hwf
  | cons e rest ih =>
    rw [List.foldl_cons]
    apply ih
    rw [stepE_eq]
    cases her : entryRace e with
    | none => exact hwf
    | some fr => exact groupAppend_wf g e.course fr hwf

theorem foldl_flatMapAux {α β γ : Type} (f : γ → List α) (g : β → α → β) (l : List γ)
    (init : β) :
    (l.flatMap f).foldl g init = l.foldl (fun acc x => (f x).foldl g acc) init := by
  induction l generalizing init with
  | nil => rfl
  | cons x xs ih => simp [List.flatMap_cons, List.foldl_append, ih]

theorem races_by_course_eq_foldl (data : CardData) :
    races_by_course data = (raceEntries data).foldl stepE [] := by
  unfold races_by_course raceEntries
  rw [foldl_flatMapAux]
  simp only [foldl_flatMapAux, List.foldl_map]
  rfl

theorem groupGet_races_by_course (data : CardData) (c : String) :
    groupGet (races_by_course data) c = courseRaces data c := by
  rw [races_by_course_eq_foldl, foldl_stepE_get]
  simp [courseRaces, groupGet]

theorem countKey_races_by_course (data : CardData) (c : String) :
    countKey (races_by_course data) c = if (courseRaces data c).isEmpty then 0 else 1 := by
  rw [races_by_course_eq_foldl]
  have hwf := foldl_stepE_wf (raceEntries data) []
    (fun c2 => by simp [countKey, groupGet]) c
  rw [hwf, foldl_stepE_get]
  simp [courseRaces, groupGet]

theorem hasKey_dictSet (d : JObj) (k k2 : String) (v : JValue) (h : hasKey d k = true) :
    hasKey (dictSet d k2 v) k = true := by
  by_cases hk : k = k2
  · subst hk
    unfold hasKey
    rw [dictGet_dictSet_self]
    rfl
  · unfold hasKey at h ⊢
    rw [dictGet_dictSet_ne d k2 k v hk]
    exact h

theorem hasKey_dictInsertAll_of (d ps : JObj) (k : String) (h : hasKey d k = true) :
    hasKey (dictInsertAll d ps) k = true := by
  induction ps generalizing d with
  | nil => exact h
  | cons p rest ih =>
    have hstep : hasKey (dictSet d p.1 p.2) k = true := hasKey_dictSet d k p.1 p.2 h
    exact ih (dictSet d p.1 p.2) hstep

theorem hasKey_dictInsertAll_mem (d ps : JObj) (k : String) (h : hasKey ps k = true) :
    hasKey (dictInsertAll d ps) k = true := by
  induction ps generalizing d with
  | nil => simp [hasKey, dictGet] at h
  | cons p rest ih =>
    obtain ⟨k1, v1⟩ := p
    by_cases hk : k1 = k
    · subst hk
      have h2 : hasKey (dictSet d k1 v1) k1 = true := by
        unfold hasKey
        rw [dictGet_dictSet_self]
        rfl
      exact hasKey_dictInsertAll_of (dictSet d k1 v1) rest k1 h2
    · have h2 : hasKey rest k = true := by
        unfold hasKey dictGet at h
        rw [if_neg hk] at h
        exact h
      exact ih (dictSet d k1 v1) h2

theorem entryRace_runners (e : RaceEntry) (v : JValue) (h : entryRace e = some v) :
    ∃ fields, v = JValue.obj fields ∧ hasKey fields "runners" = true := by
  rcases e with ⟨co, cn, ot, rd⟩
  rcases rd with _ | b | n | s | xs | fields
  · cases h
  · cases h
  · cases h
  · cases h
  · cases h
  · by_cases hr : hasKey fields "runners" = true
    · simp only [entryRace] at h
      rw [if_pos hr] at h
      have hv : v = full_race co cn ot fields := (Option.some.inj h).symm
      refine ⟨dictInsertAll
        [("country", .str co), ("course", .str cn), ("off_time", .str ot)] fields, ?_, ?_⟩
      · rw [hv]
        rfl
      · exact hasKey_dictInsertAll_mem _ fields "runners" hr
    · simp only [entryRace] at h
      rw [if_neg hr] at h
      cases h

/-- C3: for every input, the group stored for a course is exactly the list
of that course's qualifying races (each augmented with its country, course
and off-time fields) in input iteration order, so each qualifying race
appears exactly once in the group of its course; a course with at least
one qualifying race owns exactly one group and hence exactly one file
write, and the write events are one serialized file per group. -/
theorem course_split_spec (data : CardData) (c : String) :
    groupGet (races_by_course data) c = courseRaces data c ∧
    countKey (races_by_course data) c
      = (if (courseRaces data c).isEmpty then 0 else 1) ∧
    writeEvents data
      = (races_by_course data).map (fun g => (safe_name g.1 ++ ".json", JValue.arr g.2)) :=
  ⟨groupGet_races_by_course data c, countKey_races_by_course data c, rfl⟩

/-- C10: every value stored in any course group is a dict that contains
the key `runners` — so a race entry that is not a dict, or lacks that key,
appears in no group and hence in no output file — and a course whose
qualifying-race list is empty owns no group and produces no file write. -/
theorem course_split_filter_spec (data : CardData) (c : String) :
    (∀ v ∈ groupGet (races_by_course data) c,
        ∃ fields, v = JValue.obj fields ∧ hasKey fields "runners" = true) ∧
    ((courseRaces data c).isEmpty = true → countKey (races_by_course data) c = 0) := by
  constructor
  · intro v hv
    rw [groupGet_races_by_course] at hv
    unfold courseRaces at hv
    obtain ⟨e, he, hcc⟩ := List.mem_filterMap.mp hv
    by_cases hc2 : e.course = c
    · rw [if_pos hc2] at hcc
      exact entryRace_runners e v hcc
    · rw [if_neg hc2] at hcc
      cases hcc
  · intro he
    rw [countKey_races_by_course, he]
    rfl

/-- Witness for C10: the qualifying Ascot race carries `runners`; York,
whose only entry lacks `runners`, owns no group. -/
theorem course_split_filter_witness :
    (∃ fields, vC10 = JValue.obj fields ∧ hasKey fields "runners" = true) ∧
    countKey (races_by_course dataC10) "York" = 0 :=
  ⟨(course_split_filter_spec dataC10 "Ascot").1 vC10 (by exact List.Mem.head _),
   (course_split_filter_spec dataC10 "York").2 rfl⟩

/-! ### The stdout-parsing variant -/

/-- C7 (amended): in the variant that parses captured standard output, a
stdout string that fails to parse as JSON does not fail the run — it is
wrapped as `{'raw_output': stdout}` and stored in both sinks; a stdout
string that parses to a JSON array, object or string is stored as the
parsed value; but a stdout string that parses to a number, boolean or
null makes `len(output_data)` raise, failing the run with nothing stored. -/
theorem stdout_fallback_spec (env : EnvV1) (d stdout err : String)
    (hcl : (!env.rpscrapePresent && !env.cloneSucceeds) = false)
    (hsc : env.scriptExists = true)
    (hdate : resolvedDateV1 env = .str d)
    (hrun : env.runOutcome = .completed 0 stdout err) :
    (env.stdoutParse = none →
       runMainV1 env
         = ⟨true, [rawOutputRecord stdout], [("OUTPUT", rawOutputRecord stdout)]⟩) ∧
    (∀ v, env.stdoutParse = some v → (pyLen v).isSome = true →
       runMainV1 env = ⟨true, [v], [("OUTPUT", v)]⟩) ∧
    (∀ v, env.stdoutParse = some v → pyLen v = none →
       runMainV1 env = ⟨false, [], []⟩) := by
  have hred : runMainV1 env = (match env.stdoutParse with
      | some v => (match pyLen v with
          | none => ⟨false, [], []⟩
          | some _ => ⟨true, [v], [("OUTPUT", v)]⟩)
      | none => ⟨true, [rawOutputRecord stdout], [("OUTPUT", rawOutputRecord stdout)]⟩) := by
    unfold runMainV1
    rw [if_neg (by rw [hcl]; simp : ¬((!env.rpscrapePresent && !env.cloneSucceeds) = true))]
    rw [if_neg (by rw [hsc]; simp : ¬((!env.scriptExists) = true))]
    simp only [hdate, hrun]
    rw [if_neg (by omega : ¬(0 : Int) ≠ 0)]
  refine ⟨fun hp => ?_, fun v hp hl => ?_, fun v hp hl => ?_⟩
  · rw [hred, hp]
  · rw [hred, hp]
    cases hpl : pyLen v with
    | none =>
      rw [hpl] at hl
      simp at hl
    | some n => simp [hpl]
  · simp [hred, hp, hl]

/-- Witness for C7: non-JSON stdout is wrapped and stored in both sinks. -/
theorem stdout_fallback_witness :
    runMainV1 envV1w
      = ⟨true, [rawOutputRecord "plain text"], [("OUTPUT", rawOutputRecord "plain text")]⟩ :=
  (stdout_fallback_spec envV1w "today" "plain text" "" rfl rfl rfl rfl).1 rfl

/-- Counterexample to C7 as stated: stdout `42` parses as JSON, yet the
parsed value is not stored — `len(output_data)` raises a `TypeError` and
the run fails with nothing stored in either sink. -/
theorem stdout_fallback_cex :
    (runMainV1 envV1cex).success = false ∧ (runMainV1 envV1cex).dataset = [] ∧
    (runMainV1 envV1cex).kv = [] :=
  ⟨rfl, rfl, rfl⟩

end Rps
